import Mathlib

/-!
Shallow embedding of `src/keyboard/layer.rs` (crate `alc-rs`), together with the
small parts of its dependencies that the layer code uses:

* `Keycode` from `src/text_processor/keycode.rs` (the variant `_NO` and the
  `TryFrom<&str>` impl live in a richer keycode module that is not part of the
  sources; they are modelled from the spec where noted);
* `KeycodeKey` from `src/keyboard/key.rs` (not among the sources; modelled from
  the spec's description of `PositionKey`);
* the `Array2D` container from the external `array2d` crate, modelled as a list
  of rows with the same bounds-checking behaviour (`from_rows` only checks that
  all rows share the first row's length; `get`/`set` check against the actual
  stored dimensions).

Rust `&str` values are modelled as `List Char` and split with structurally
recursive helpers mirroring `split`, `split_whitespace` and `trim`; byte lengths
(`str::len`) are modelled by summing UTF-8 sizes of the chars.  Unsigned `usize`
subtraction that can underflow, and `unwrap` calls that can panic, are modelled
by `Option` (with `none` for the panic).  The RNG threaded through `randomize`
is modelled as an abstract stream `rng : Nat → Nat` of draws; `choose` on a
non-empty slice picks the element at index `draw % len`, and consumes one draw,
exactly as `rand`'s uniform `choose` does.
-/

/-- Keycodes, from `src/text_processor/keycode.rs`.  The source names carry a
leading underscore (`_NO`, `_A`, ...); Lean names drop it.  `NO` is the no-op
sentinel keycode used by `Layer::init_blank`; it lives in the richer keycode
module of the crate, the spec calls it the "designated no-op sentinel value". -/
inductive Keycode where
  | NO
  | A
  | B
  | C
  | D
  | E
  | SFT
  | PLACEHOLDER
deriving DecidableEq, Repr

/-- Coordinate into a multi-layer layout, from the spec's data model
(`LayoutPosition { layer_index, row_index, col_index }`). -/
structure LayoutPosition where
  layer_index : Nat
  row_index : Nat
  col_index : Nat
deriving DecidableEq, Repr

/-- Modelled from the spec and the call sites in `layer.rs`:
`LayoutPosition::for_layer(i, j)` builds the position `(row i, col j)` of a
single layer (layer index 0). -/
def LayoutPosition.for_layer (r c : Nat) : LayoutPosition :=
  { layer_index := 0, row_index := r, col_index := c }

/-- Modelled from the spec: `PositionKey`/`KeycodeKey` from `src/keyboard/key.rs`
(not among the sources): a value plus the two flags `moveable` and `symmetric`. -/
structure KeycodeKey where
  value : Keycode
  is_moveable : Bool
  is_symmetric : Bool
deriving DecidableEq, Repr

/-- Modelled from the spec: `KeycodeKey::from_keycode` builds a key with the
given value and default flags `moveable = true`, `symmetric = false` (the spec:
`init_blank()` "fills every cell with a designated no-op sentinel value,
moveable=true, symmetric=false", and `init_blank` fills with
`KeycodeKey::from_keycode(_NO)`). -/
def KeycodeKey.from_keycode (k : Keycode) : KeycodeKey :=
  { value := k, is_moveable := true, is_symmetric := false }

deriving instance DecidableEq for Except

/-- The error enum of the external `array2d` crate (`array2d::Error`), imported
as `Array2DError` in `layer.rs`. -/
inductive Array2DError where
  | DimensionMismatch
  | IndexOutOfBounds (i : Nat)
  | IndicesOutOfBounds (r c : Nat)
deriving DecidableEq, Repr

/-- `KeyboardError` from `layer.rs` lines 12-18. -/
inductive KeyboardError where
  | SymmetryError (r1 c1 r2 c2 : Nat)
  | RowMismatchError (expected found : Nat)
  | ColMismatchError (expected found : Nat)
  | InvalidKeyFromString (s : String)
deriving DecidableEq, Repr

/-- The `fmt::Display` impl for `KeyboardError`, `layer.rs` lines 20-34.
Note the faithful reproduction of the source's `RowMismatchError` arm, which
interpolates `r1` into BOTH placeholders (`write!(f, "Expected {r1} rows but
found {:?} rows.", r1)`), leaving `r2` unused. -/
def KeyboardError.render : KeyboardError → String
  | .SymmetryError r1 c1 r2 c2 =>
      s!"Position ({r1}, {c1}) is marked as symmetric but its corresponding symmetric position ({r2}, {c2}) is not."
  | .RowMismatchError r1 _r2 =>
      s!"Expected {r1} rows but found {r1} rows."
  | .ColMismatchError c1 c2 =>
      s!"Expected {c1} rows but found {c2} rows."
  | .InvalidKeyFromString s =>
      s!"{s} cannot be parsed into a KeycodeKey."

/-- Positional list lookup with a default (Rust slice indexing seen through a
total function; used only where the source indexes in bounds). -/
def nthD {α : Type} (l : List α) (i : Nat) (d : α) : α :=
  match l, i with
  | [], _ => d
  | a :: _, 0 => a
  | _ :: t, n + 1 => nthD t n d

/-- Positional list lookup returning `Option`, mirroring `Vec::get`. -/
def nth? {α : Type} (l : List α) (i : Nat) : Option α :=
  match l, i with
  | [], _ => none
  | a :: _, 0 => some a
  | _ :: t, n + 1 => nth? t n

/-- In-place update of one position, mirroring `v[i] = x` (identity out of
bounds; the sources only perform it after a bounds check). -/
def setNth {α : Type} (l : List α) (i : Nat) (a : α) : List α :=
  match l, i with
  | [], _ => []
  | _ :: t, 0 => a :: t
  | h :: t, n + 1 => h :: setNth t n a

/-- The `Array2D<T>` container of the external `array2d` crate, modelled as its
list of rows. -/
structure Array2D (K : Type) where
  data : List (List K)
deriving DecidableEq, Repr

/-- `Array2D::from_rows`: succeeds iff every row has the same length as the
first row (`elements.get(0).map(Vec::len).unwrap_or(0)`); the declared
dimensions of the value being built play no role. -/
def Array2D.from_rows {K : Type} (elements : List (List K)) : Except Array2DError (Array2D K) :=
  let row_len := (elements.headD []).length
  if elements.all (fun row => row.length == row_len) then .ok ⟨elements⟩
  else .error .DimensionMismatch

/-- `Array2D::get(r, c)`: `Some` iff the indices are within the stored data. -/
def Array2D.get {K : Type} (a : Array2D K) (r c : Nat) : Option K :=
  match nth? a.data r with
  | some row => nth? row c
  | none => none

/-- `Array2D::set(r, c, v)`: bounds-checked in-place update. -/
def Array2D.set {K : Type} (a : Array2D K) (r c : Nat) (v : K) :
    Except Array2DError (Array2D K) :=
  match a.get r c with
  | some _ => .ok ⟨setNth a.data r (setNth (nthD a.data r []) c v)⟩
  | none => .error (.IndicesOutOfBounds r c)

/-- `Array2D::filled_with(v, r, c)`. -/
def Array2D.filled_with {K : Type} (v : K) (r c : Nat) : Array2D K :=
  ⟨List.replicate r (List.replicate c v)⟩

/-- `Layer<R, C, K>` from `layer.rs` line 39: a struct holding an `Array2D<K>`,
with the dimensions `R`, `C` as const generics (phantom parameters here). -/
structure Layer (R C : Nat) (K : Type) where
  layer : Array2D K
deriving DecidableEq, Repr

/-- `Layer::from_rows`, `layer.rs` lines 43-46: delegates to
`Array2D::from_rows` and wraps the result; `R` and `C` are never consulted. -/
def Layer.from_rows (R C : Nat) {K : Type} (elements : List (List K)) :
    Except Array2DError (Layer R C K) :=
  match Array2D.from_rows elements with
  | .ok layer_array2d => .ok ⟨layer_array2d⟩
  | .error e => .error e

/-- `Layer::get`, `layer.rs` lines 48-53. -/
def Layer.get {R C : Nat} {K : Type} (l : Layer R C K) (r c : Nat) :
    Except Array2DError K :=
  match l.layer.get r c with
  | some v => .ok v
  | none => .error (.IndicesOutOfBounds r c)

/-- `Layer::get_mut`, `layer.rs` lines 54-59: the same bounds check as `get`,
returning the cell (the mutable borrow is modelled by its access semantics). -/
def Layer.get_mut {R C : Nat} {K : Type} (l : Layer R C K) (r c : Nat) :
    Except Array2DError K :=
  match l.layer.get r c with
  | some v => .ok v
  | none => .error (.IndicesOutOfBounds r c)

/-- `Layer::set`, `layer.rs` lines 60-62: delegates to `Array2D::set`. -/
def Layer.set {R C : Nat} {K : Type} (l : Layer R C K) (row col : Nat) (element : K) :
    Except Array2DError (Layer R C K) :=
  match l.layer.set row col element with
  | .ok a => .ok ⟨a⟩
  | .error e => .error e

/-- `Layer::get_from_layout_position`, `layer.rs` lines 63-66. -/
def Layer.get_from_layout_position {R C : Nat} {K : Type} (l : Layer R C K)
    (p : LayoutPosition) : Except Array2DError K :=
  l.get p.row_index p.col_index

/-- `Layer::num_rows`, `layer.rs` lines 67-69: returns the const generic `R`
(not the length of the stored data). -/
def Layer.num_rows {R C : Nat} {K : Type} (_l : Layer R C K) : Nat := R

/-- `Layer::num_columns`, `layer.rs` lines 70-72: returns the const generic `C`. -/
def Layer.num_columns {R C : Nat} {K : Type} (_l : Layer R C K) : Nat := C

/-- `Layer::symmetric_position`, `layer.rs` lines 74-81: mirrored left-right,
`symm_col = (num_cols - 1) - orig_col`, row and layer index unchanged.  `Nat`
truncated subtraction stands in for the `usize` subtraction; the two agree
exactly when `col_index < C` (see `Layer.symmetric_position_checked` for the
underflow behaviour outside that range). -/
def Layer.symmetric_position {R C : Nat} {K : Type} (l : Layer R C K)
    (p : LayoutPosition) : LayoutPosition :=
  { layer_index := p.layer_index
    row_index := p.row_index
    col_index := (l.num_columns - 1) - p.col_index }

/-- `Layer::symmetric_position` with the `usize` underflow made explicit: the
Rust expression `(num_cols - 1) - orig_col` panics (debug overflow check) when
`num_cols = 0` or `orig_col > num_cols - 1`; the panic is modelled by `none`. -/
def Layer.symmetric_position_checked {R C : Nat} {K : Type} (l : Layer R C K)
    (p : LayoutPosition) : Option LayoutPosition :=
  if 1 ≤ C ∧ p.col_index ≤ C - 1 then some (l.symmetric_position p) else none

/-- `Layer::init_blank`, `layer.rs` lines 84-88. -/
def Layer.init_blank (R C : Nat) : Layer R C KeycodeKey :=
  ⟨Array2D.filled_with (KeycodeKey.from_keycode .NO) R C⟩

/-- `rand`'s `SliceRandom::choose`: `None` on an empty slice (consuming no
draw), otherwise the element at the uniform index `draw % len`.  The draw
itself comes from the abstract RNG stream. -/
def chooseSlice (vals : List Keycode) (draw : Nat) : Option Keycode :=
  nth? vals (draw % vals.length)

/-- The row-major scan order of the two nested loops `for i in 0..R { for j in
0..C { ... } }` in `Layer::randomize`. -/
def rowMajor (R C : Nat) : List (Nat × Nat) :=
  (List.range R).flatMap (fun i => (List.range C).map (fun j => (i, j)))

/-- Loop body of `Layer::randomize`, `layer.rs` lines 90-112, as a recursion
over the remaining scan positions.  State: the RNG draw counter and the layer
(the Rust `&mut self`).  The result pairs the final layer with `none` for
`Ok(())` or `some e` for `Err(e)` (on error the layer keeps the mutations made
so far, as in the source); the outer `Option` models the `unwrap` panics on the
two `get` calls (never hit on a well-formed layer). -/
def randomizeGo {R C : Nat} (rng : Nat → Nat) (valid_keycodes : List Keycode) :
    List (Nat × Nat) → Nat → Layer R C KeycodeKey →
    Option (Layer R C KeycodeKey × Option KeyboardError)
  | [], _, l => some (l, none)
  | p :: rest, n, l =>
    match l.get p.1 p.2 with
    | .error _ => none
    | .ok key =>
      if key.is_symmetric then
        let symm_lp := l.symmetric_position (LayoutPosition.for_layer p.1 p.2)
        match l.get_from_layout_position symm_lp with
        | .error _ => none
        | .ok symm_key =>
          if !symm_key.is_symmetric then
            some (l, some (.SymmetryError p.1 p.2 symm_lp.row_index symm_lp.col_index))
          else
            randomizeGo rng valid_keycodes rest n l
      else if !key.is_moveable then
        randomizeGo rng valid_keycodes rest n l
      else
        match chooseSlice valid_keycodes (rng n) with
        | some random_keycode =>
          match l.set p.1 p.2 (KeycodeKey.from_keycode random_keycode) with
          | .ok l2 => randomizeGo rng valid_keycodes rest (n + 1) l2
          | .error _ => randomizeGo rng valid_keycodes rest (n + 1) l
        | none => randomizeGo rng valid_keycodes rest n l

/-- `Layer::randomize`, `layer.rs` lines 89-114.  The Rust signature is
`randomize(&mut self, rng, valid_keycodes) -> Result<(), KeyboardError>`; here
the mutated layer is returned alongside the outcome. -/
def Layer.randomize {R C : Nat} (rng : Nat → Nat) (valid_keycodes : List Keycode)
    (l : Layer R C KeycodeKey) :
    Option (Layer R C KeycodeKey × Option KeyboardError) :=
  randomizeGo rng valid_keycodes (rowMajor R C) 0 l

/-- Total view of a layer cell (the key at `(i, j)`, defaulting to the blank
key out of bounds); convenient for stating properties. -/
def keyAt {R C : Nat} (l : Layer R C KeycodeKey) (i j : Nat) : KeycodeKey :=
  nthD (nthD l.layer.data i []) j (KeycodeKey.from_keycode .NO)

/-- Cell `(i, j)` violates the symmetry invariant: it is flagged symmetric but
its mirror cell `(i, (C-1)-j)` is not. -/
def violatingB {R C : Nat} (l : Layer R C KeycodeKey) (i j : Nat) : Bool :=
  (keyAt l i j).is_symmetric && !(keyAt l i ((C - 1) - j)).is_symmetric

/-- First violating cell of a scan-order list, if any. -/
def firstViolation {R C : Nat} (l : Layer R C KeycodeKey) :
    List (Nat × Nat) → Option (Nat × Nat)
  | [] => none
  | p :: rest => if violatingB l p.1 p.2 then some p else firstViolation l rest

/-- The data-model invariant of `Layer<R, C, K>`: the stored grid has exactly
`R` rows of `C` cells each. -/
def Layer.wf {R C : Nat} {K : Type} (l : Layer R C K) : Prop :=
  l.layer.data.length = R ∧ ∀ row ∈ l.layer.data, row.length = C

instance {R C : Nat} {K : Type} (l : Layer R C K) : Decidable l.wf := by
  unfold Layer.wf
  infer_instance

/-- Two layers agree on both flags at every cell. -/
def flagsEq {R C : Nat} (l l' : Layer R C KeycodeKey) : Prop :=
  ∀ i j, (keyAt l' i j).is_symmetric = (keyAt l i j).is_symmetric ∧
    (keyAt l' i j).is_moveable = (keyAt l i j).is_moveable

/-- The layer produced by an in-bounds `Layer::set`. -/
def setK {R C : Nat} {K : Type} (l : Layer R C K) (i j : Nat) (v : K) : Layer R C K :=
  ⟨⟨setNth l.layer.data i (setNth (nthD l.layer.data i []) j v)⟩⟩

/-! ### Concrete inputs used to instantiate the claims -/

/-- The 2x2 blank layer of the spec's concrete scenario, with cell (0,0)
flagged symmetric and its mirror (0,1) not flagged. -/
def layerS : Layer 2 2 KeycodeKey :=
  ⟨⟨[[⟨.NO, true, true⟩, ⟨.NO, true, false⟩],
     [⟨.NO, true, false⟩, ⟨.NO, true, false⟩]]⟩⟩

/-- A blank 4x6 layer (the dimensions of the source's `test_symmetry`). -/
def layerB46 : Layer 4 6 KeycodeKey := Layer.init_blank 4 6

/-- A 1x2 layer whose first cell is pinned (`moveable = false`). -/
def layerPin : Layer 1 2 KeycodeKey :=
  ⟨⟨[[⟨.A, false, false⟩, ⟨.B, true, false⟩]]⟩⟩

/-- `layerPin` after a seeded `randomize` with candidate set `[E]`: only the
moveable cell changed. -/
def layerPinAfter : Layer 1 2 KeycodeKey :=
  ⟨⟨[[⟨.A, false, false⟩, ⟨.E, true, false⟩]]⟩⟩

/-- The 1x1 grid that `Layer::<2,3>::from_rows` wrongly accepts. -/
def layerTiny : Layer 2 3 KeycodeKey :=
  ⟨⟨[[KeycodeKey.from_keycode Keycode.A]]⟩⟩

/-- A 1x1 blank moveable layer. -/
def layerOne : Layer 1 1 KeycodeKey :=
  ⟨⟨[[⟨.NO, true, false⟩]]⟩⟩

/-- `layerOne` after a seeded `randomize` with candidate set `[E]`. -/
def layerOneAfter : Layer 1 1 KeycodeKey :=
  ⟨⟨[[⟨.E, true, false⟩]]⟩⟩

/-- The 1x1 layer produced by parsing the token `A_22`, whose flag characters
are outside the `'0'/'1'` grammar. -/
def layerA22 : Layer 1 1 KeycodeKey :=
  ⟨⟨[[⟨.A, true, true⟩]]⟩⟩

/-- A blank 1x3 layer (used for the `symmetric_position` partiality claim). -/
def layerB13 : Layer 1 3 KeycodeKey := Layer.init_blank 1 3

/-- A blank 2x3 layer (used for the bounds claim). -/
def layerB23 : Layer 2 3 KeycodeKey := Layer.init_blank 2 3

/-- A 2x2 layer whose cell (0,1) is flagged symmetric while its mirror (0,0)
is a plain moveable cell scanned first: `randomize` replaces (0,0), then
reports the violation at (0,1). -/
def layerNA : Layer 2 2 KeycodeKey :=
  ⟨⟨[[⟨.NO, true, false⟩, ⟨.NO, true, true⟩],
     [⟨.NO, true, false⟩, ⟨.NO, true, false⟩]]⟩⟩

/-- The partially mutated state in which `randomize` leaves `layerNA` when it
returns the symmetry error. -/
def layerNAAfter : Layer 2 2 KeycodeKey :=
  ⟨⟨[[⟨.E, true, false⟩, ⟨.NO, true, true⟩],
     [⟨.NO, true, false⟩, ⟨.NO, true, false⟩]]⟩⟩

/-- A constant RNG stream (every draw is 0), standing in for a seeded RNG. -/
def rngZero : Nat → Nat := fun _ => 0

/-- Rust `str::split` with a single-character pattern, on the char list view:
every occurrence of a char satisfying `p` separates two (possibly empty)
pieces.  Used for `split("\n")`, `split("_")` and (followed by dropping the
empty pieces) `split_whitespace`. -/
def splitPred (p : Char → Bool) : List Char → List (List Char)
  | [] => [[]]
  | c :: rest =>
    if p c then [] :: splitPred p rest
    else
      match splitPred p rest with
      | [] => [[c]]
      | acc :: more => (c :: acc) :: more

/-- Rust `str::split_whitespace`: split on whitespace, no empty pieces. -/
def split_whitespace (l : List Char) : List (List Char) :=
  (splitPred Char.isWhitespace l).filter (fun t => !t.isEmpty)

/-- Rust `str::trim`: strip leading and trailing whitespace. -/
def trimChars (l : List Char) : List Char :=
  ((l.dropWhile Char.isWhitespace).reverse.dropWhile Char.isWhitespace).reverse

/-- Number of bytes of the UTF-8 encoding of one char (Rust `char::len_utf8`). -/
def charUtf8Size (c : Char) : Nat :=
  if c.toNat < 128 then 1
  else if c.toNat < 2048 then 2
  else if c.toNat < 65536 then 3
  else 4

/-- Rust `str::len`: the byte length of the UTF-8 encoding. -/
def bytesLen (l : List Char) : Nat :=
  (l.map charUtf8Size).sum

/-- Rust `char::to_digit(10)`: `Some` digit for `'0'..='9'`, else `None`. -/
def toDigit10 (c : Char) : Option Nat :=
  if c.isDigit then some (c.toNat - '0'.toNat) else none

/-- Modelled from the spec: `Keycode::try_from(&str)` (the impl lives in the
richer keycode module, not among the sources).  Per the token grammar, a value
is a symbolic key name (matched here against the enum variants of
`src/text_processor/keycode.rs` plus the sentinel `_NO`); anything else fails
with an error carrying the offending string. -/
def Keycode.try_from (s : List Char) : Except String Keycode :=
  if s = ['_', 'N', 'O'] then .ok .NO
  else if s = ['_', 'A'] then .ok .A
  else if s = ['_', 'B'] then .ok .B
  else if s = ['_', 'C'] then .ok .C
  else if s = ['_', 'D'] then .ok .D
  else if s = ['_', 'E'] then .ok .E
  else if s = ['_', 'S', 'F', 'T'] then .ok .SFT
  else if s = ['_', 'P', 'L', 'A', 'C', 'E', 'H', 'O', 'L', 'D', 'E', 'R'] then .ok .PLACEHOLDER
  else .error (String.mk s)

/-- The error type of `<Layer as TryFrom<&str>>::try_from`, whose Rust type is
`Box<dyn Error>`: either a `KeyboardError` or the error propagated from
`Keycode::try_from` by the `?` operator. -/
inductive DynError where
  | kb (e : KeyboardError)
  | keycode (s : String)
deriving DecidableEq, Repr

/-- Flag parsing of one cell token, `layer.rs` lines 145-158: after the value,
the next `split("_")` item must be the two flag characters.  A missing item or
a byte length other than 2 yields `InvalidKeyFromString`; each flag char goes
through `to_digit(10).unwrap()` (`none` models the panic on a non-digit, per
the source comment "should handle errors if they aren't 0 or 1, but lazy so
skipping for now") and compares `!= 0`. -/
def parseFlags (col : List Char) (key : KeycodeKey) (key_details : List (List Char)) :
    Option (Except DynError KeycodeKey) :=
  match key_details.head? with
  | none => some (.error (.kb (.InvalidKeyFromString (String.mk col))))
  | some flags =>
    if bytesLen flags ≠ 2 then
      some (.error (.kb (.InvalidKeyFromString (String.mk col))))
    else
      match flags.head? with
      | none => none
      | some c1 =>
        match toDigit10 c1 with
        | none => none
        | some d1 =>
          match (flags.drop 1).head? with
          | none => none
          | some c2 =>
            match toDigit10 c2 with
            | none => none
            | some d2 =>
              some (.ok { key with is_moveable := d1 != 0, is_symmetric := d2 != 0 })

/-- One cell token of the textual grammar, `layer.rs` lines 130-158: start from
the blank key; if the token starts with `_` (the sentinel marker, Rust
`&col[0..1] == "_"`), skip two `split("_")` items and parse only flags, else
parse the first item as a keycode named `_{value}` and then the flags. -/
def parseToken (col : List Char) : Option (Except DynError KeycodeKey) :=
  let key := KeycodeKey.from_keycode .NO
  let key_details := splitPred (fun c => c == '_') col
  if col.head? = some '_' then
    parseFlags col key (key_details.drop 2)
  else
    match key_details.head? with
    | some key_value_string =>
      match Keycode.try_from ('_' :: key_value_string) with
      | .ok key_value => parseFlags col { key with value := key_value } (key_details.drop 1)
      | .error e => some (.error (.keycode e))
    | none => some (.error (.kb (.InvalidKeyFromString (String.mk col))))

/-- Cell loop of `try_from`, `layer.rs` lines 130-160: parse each token of one
row and store it with `layer.set(i, j, key)` (whose `Result` the source
discards). -/
def parseRow {R C : Nat} (i : Nat) :
    List (List Char) → Nat → Layer R C KeycodeKey →
    Option (Except DynError (Layer R C KeycodeKey))
  | [], _, acc => some (.ok acc)
  | col :: restCols, j, acc =>
    match parseToken col with
    | none => none
    | some (.error e) => some (.error e)
    | some (.ok key) =>
      match acc.set i j key with
      | .ok acc2 => parseRow i restCols (j + 1) acc2
      | .error _ => parseRow i restCols (j + 1) acc

/-- Row loop of `try_from`, `layer.rs` lines 125-161: each row is split on
whitespace into exactly `C` tokens, else `ColMismatchError(C, cols.len())`. -/
def parseRows {R C : Nat} :
    List (List Char) → Nat → Layer R C KeycodeKey →
    Option (Except DynError (Layer R C KeycodeKey))
  | [], _, acc => some (.ok acc)
  | row :: restRows, i, acc =>
    let cols := split_whitespace row
    if cols.length ≠ C then some (.error (.kb (.ColMismatchError C cols.length)))
    else
      match parseRow i cols 0 acc with
      | none => none
      | some (.error e) => some (.error e)
      | some (.ok acc2) => parseRows restRows (i + 1) acc2

/-- `<Layer<R, C, KeycodeKey> as TryFrom<&str>>::try_from`, `layer.rs` lines
116-165: split on newlines, drop blank lines, require exactly `R` rows (else
`RowMismatchError(R, rows.len())`), then parse the rows into an initially
blank layer.  The outer `Option` models the `unwrap` panics inside flag
parsing. -/
def Layer.try_from (R C : Nat) (layer_string : String) :
    Option (Except DynError (Layer R C KeycodeKey)) :=
  let rows := (splitPred (fun c => c == '\n') layer_string.data).filter
    (fun s => !(trimChars s).isEmpty)
  if rows.length ≠ R then some (.error (.kb (.RowMismatchError R rows.length)))
  else parseRows rows 0 (Layer.init_blank R C)

/-! ### Basic lemmas about the list helpers -/

theorem nth?_eq_nthD {α : Type} (l : List α) (i : Nat) (d : α) (h : i < l.length) :
    nth? l i = some (nthD l i d) := by
  induction l generalizing i with
  | nil => simp at h
  | cons a t ih =>
    cases i with
    | zero => simp [nth?, nthD]
    | succ n =>
      simp only [nth?, nthD]
      exact ih n (by simpa using h)

theorem nth?_eq_none {α : Type} (l : List α) (i : Nat) (h : l.length ≤ i) :
    nth? l i = none := by
  induction l generalizing i with
  | nil => simp [nth?]
  | cons a t ih =>
    cases i with
    | zero => simp at h
    | succ n =>
      simp only [nth?]
      exact ih n (by simpa using h)

theorem nthD_mem {α : Type} (l : List α) (i : Nat) (d : α) (h : i < l.length) :
    nthD l i d ∈ l := by
  induction l generalizing i with
  | nil => simp at h
  | cons a t ih =>
    cases i with
    | zero => simp [nthD]
    | succ n =>
      simp only [nthD]
      exact List.mem_cons_of_mem a (ih n (by simpa using h))

theorem length_setNth {α : Type} (l : List α) (i : Nat) (a : α) :
    (setNth l i a).length = l.length := by
  induction l generalizing i with
  | nil => simp [setNth]
  | cons b t ih =>
    cases i with
    | zero => simp [setNth]
    | succ n => simp [setNth, ih n]

theorem nthD_setNth_self {α : Type} (l : List α) (i : Nat) (a d : α) (h : i < l.length) :
    nthD (setNth l i a) i d = a := by
  induction l generalizing i with
  | nil => simp at h
  | cons b t ih =>
    cases i with
    | zero => simp [setNth, nthD]
    | succ n =>
      simp only [setNth, nthD]
      exact ih n (by simpa using h)

theorem nthD_setNth_ne {α : Type} (l : List α) (i j : Nat) (a d : α) (h : i ≠ j) :
    nthD (setNth l i a) j d = nthD l j d := by
  induction l generalizing i j with
  | nil => simp [setNth]
  | cons b t ih =>
    cases i with
    | zero =>
      cases j with
      | zero => exact absurd rfl h
      | succ m => simp [setNth, nthD]
    | succ n =>
      cases j with
      | zero => simp [setNth, nthD]
      | succ m =>
        simp only [setNth, nthD]
        exact ih n m (fun hnm => h (by rw [hnm]))

theorem mem_setNth {α : Type} (l : List α) (i : Nat) (a b : α) (h : b ∈ setNth l i a) :
    b ∈ l ∨ b = a := by
  induction l generalizing i with
  | nil => simp [setNth] at h
  | cons c t ih =>
    cases i with
    | zero =>
      rcases List.mem_cons.mp h with h1 | h1
      · exact Or.inr h1
      · exact Or.inl (List.mem_cons_of_mem c h1)
    | succ n =>
      rcases List.mem_cons.mp h with h1 | h1
      · exact Or.inl (by simp [h1])
      · rcases ih n h1 with h2 | h2
        · exact Or.inl (List.mem_cons_of_mem c h2)
        · exact Or.inr h2

/-! ### Access lemmas for well-formed layers -/

theorem Layer.get_eq_keyAt {R C : Nat} (l : Layer R C KeycodeKey) (hwf : l.wf)
    {i j : Nat} (hi : i < R) (hj : j < C) :
    l.get i j = .ok (keyAt l i j) := by
  obtain ⟨hlen, hrows⟩ := hwf
  have hi' : i < l.layer.data.length := by rw [hlen]; exact hi
  have hrow : nth? l.layer.data i = some (nthD l.layer.data i []) :=
    nth?_eq_nthD _ _ _ hi'
  have hjlen : j < (nthD l.layer.data i []).length := by
    rw [hrows _ (nthD_mem _ _ _ hi')]; exact hj
  have hcell : nth? (nthD l.layer.data i []) j =
      some (nthD (nthD l.layer.data i []) j (KeycodeKey.from_keycode .NO)) :=
    nth?_eq_nthD _ _ _ hjlen
  simp [Layer.get, Array2D.get, hrow, hcell, keyAt]

theorem Layer.get_oob {R C : Nat} {K : Type} (l : Layer R C K) (hwf : l.wf)
    {i j : Nat} (h : R ≤ i ∨ C ≤ j) :
    l.get i j = .error (.IndicesOutOfBounds i j) := by
  obtain ⟨hlen, hrows⟩ := hwf
  rcases h with h | h
  · have : nth? l.layer.data i = none := nth?_eq_none _ _ (by rw [hlen]; exact h)
    simp [Layer.get, Array2D.get, this]
  · by_cases hi : i < R
    · have hi' : i < l.layer.data.length := by rw [hlen]; exact hi
      have hrow : nth? l.layer.data i = some (nthD l.layer.data i []) :=
        nth?_eq_nthD _ _ _ hi'
      have : nth? (nthD l.layer.data i []) j = none := by
        apply nth?_eq_none
        rw [hrows _ (nthD_mem _ _ _ hi')]; exact h
      simp [Layer.get, Array2D.get, hrow, this]
    · have : nth? l.layer.data i = none :=
        nth?_eq_none _ _ (by rw [hlen]; omega)
      simp [Layer.get, Array2D.get, this]

theorem Layer.set_ok {R C : Nat} (l : Layer R C KeycodeKey) (hwf : l.wf)
    {i j : Nat} (hi : i < R) (hj : j < C) (v : KeycodeKey) :
    l.set i j v = .ok (setK l i j v) := by
  have hget : l.get i j = .ok (keyAt l i j) := Layer.get_eq_keyAt l hwf hi hj
  have : l.layer.get i j = some (keyAt l i j) := by
    unfold Layer.get at hget
    revert hget
    cases l.layer.get i j with
    | some v => intro h; simp at h; simp [h]
    | none => intro h; simp at h
  simp [Layer.set, Array2D.set, this, setK]

theorem setK_wf {R C : Nat} {K : Type} (l : Layer R C K) (hwf : l.wf)
    {i j : Nat} (hi : i < R) (v : K) :
    (setK l i j v).wf := by
  obtain ⟨hlen, hrows⟩ := hwf
  constructor
  · simp [setK, length_setNth, hlen]
  · intro row hrow
    rcases mem_setNth _ _ _ _ hrow with h1 | h1
    · exact hrows _ h1
    · rw [h1, length_setNth]
      exact hrows _ (nthD_mem _ _ _ (by rw [hlen]; exact hi))

theorem setNth_oob {α : Type} (l : List α) (i : Nat) (a : α) (h : l.length ≤ i) :
    setNth l i a = l := by
  induction l generalizing i with
  | nil => simp [setNth]
  | cons b t ih =>
    cases i with
    | zero => simp at h
    | succ n =>
      simp only [setNth, List.cons.injEq, true_and]
      exact ih n (by simpa using h)

theorem keyAt_setK_self {R C : Nat} (l : Layer R C KeycodeKey) (hwf : l.wf)
    {i j : Nat} (hi : i < R) (hj : j < C) (v : KeycodeKey) :
    keyAt (setK l i j v) i j = v := by
  obtain ⟨hlen, hrows⟩ := hwf
  have hi' : i < l.layer.data.length := by rw [hlen]; exact hi
  have hj' : j < (nthD l.layer.data i []).length := by
    rw [hrows _ (nthD_mem _ _ _ hi')]; exact hj
  unfold keyAt setK
  simp only
  rw [nthD_setNth_self _ _ _ _ hi', nthD_setNth_self _ _ _ _ hj']

theorem keyAt_setK_ne {R C : Nat} (l : Layer R C KeycodeKey)
    {i j : Nat} (v : KeycodeKey) (a b : Nat) (h : (a, b) ≠ (i, j)) :
    keyAt (setK l i j v) a b = keyAt l a b := by
  unfold keyAt setK
  simp only
  by_cases ha : a = i
  · subst ha
    have hb : b ≠ j := fun hb => h (by rw [hb])
    by_cases hi' : a < l.layer.data.length
    · rw [nthD_setNth_self _ _ _ _ hi', nthD_setNth_ne _ _ _ _ _ (fun hx => hb hx.symm)]
    · rw [setNth_oob _ _ _ (by omega)]
  · rw [nthD_setNth_ne _ _ _ _ _ (fun hx => ha hx.symm)]

theorem violatingB_congr {R C : Nat} (l l' : Layer R C KeycodeKey)
    (h : flagsEq l l') (i j : Nat) : violatingB l' i j = violatingB l i j := by
  unfold violatingB
  rw [(h i j).1, (h i ((C - 1) - j)).1]

theorem firstViolation_congr {R C : Nat} (l l' : Layer R C KeycodeKey)
    (h : flagsEq l l') (ps : List (Nat × Nat)) :
    firstViolation l' ps = firstViolation l ps := by
  induction ps with
  | nil => rfl
  | cons p rest ih =>
    unfold firstViolation
    rw [violatingB_congr l l' h, ih]

theorem flagsEq_refl {R C : Nat} (l : Layer R C KeycodeKey) : flagsEq l l :=
  fun _ _ => ⟨rfl, rfl⟩

theorem flagsEq_trans {R C : Nat} {l1 l2 l3 : Layer R C KeycodeKey}
    (h1 : flagsEq l1 l2) (h2 : flagsEq l2 l3) : flagsEq l1 l3 :=
  fun i j => ⟨((h2 i j).1).trans ((h1 i j).1), ((h2 i j).2).trans ((h1 i j).2)⟩

/-! ### The row-major scan list -/

theorem mem_rowMajor {R C : Nat} {i j : Nat} :
    (i, j) ∈ rowMajor R C ↔ i < R ∧ j < C := by
  simp [rowMajor, List.mem_flatMap, List.mem_map, List.mem_range]

theorem rowMajor_bounds {R C : Nat} :
    ∀ p ∈ rowMajor R C, p.1 < R ∧ p.2 < C := by
  intro p hp
  obtain ⟨i, j⟩ := p
  exact mem_rowMajor.mp hp

theorem rowMajor_nodup {R C : Nat} : (rowMajor R C).Nodup := by
  unfold rowMajor
  rw [List.nodup_flatMap]
  constructor
  · intro i _
    exact (List.nodup_range C).map (fun a b hab => by simpa using hab)
  · apply List.Pairwise.imp _ (List.nodup_range R)
    intro a b hab
    simp only [Function.onFun, List.disjoint_left]
    intro p hp hp'
    obtain ⟨j, _, rfl⟩ := List.mem_map.mp hp
    obtain ⟨j', _, hj'⟩ := List.mem_map.mp hp'
    exact hab (by simpa using congrArg Prod.fst hj'.symm)

theorem chooseSlice_of_ne_nil (vals : List Keycode) (r : Nat) (h : vals ≠ []) :
    ∃ kc, chooseSlice vals r = some kc ∧ kc ∈ vals := by
  have hlen : 0 < vals.length := List.length_pos.mpr h
  have hm : r % vals.length < vals.length := Nat.mod_lt _ hlen
  exact ⟨nthD vals (r % vals.length) .NO, nth?_eq_nthD _ _ _ hm, nthD_mem _ _ _ hm⟩

/-- Master characterization of the `randomize` scan over a list of in-bounds,
duplicate-free positions: it never panics on a well-formed layer; it returns
`Err` exactly for the first violating position of the scan list, with the
coordinates of the cell and of its mirror; it preserves well-formedness and
both flags of every cell; it leaves untouched every position outside the scan
list and every symmetric or non-moveable cell; with an empty candidate list it
changes nothing; and on a violation-free scan each moveable, non-symmetric
cell ends up holding a key built from some RNG-chosen candidate. -/
theorem randomizeGo_spec {R C : Nat} (rng : Nat → Nat) (valid : List Keycode)
    (ps : List (Nat × Nat)) :
    ∀ (n : Nat) (l : Layer R C KeycodeKey), l.wf →
      (∀ p ∈ ps, p.1 < R ∧ p.2 < C) → ps.Nodup →
      ∃ l' : Layer R C KeycodeKey,
        randomizeGo rng valid ps n l =
          some (l', (firstViolation l ps).map
            (fun p => KeyboardError.SymmetryError p.1 p.2 p.1 ((C - 1) - p.2))) ∧
        l'.wf ∧ flagsEq l l' ∧
        (∀ a b, ((a, b) ∉ ps ∨ (keyAt l a b).is_symmetric = true ∨
            (keyAt l a b).is_moveable = false) → keyAt l' a b = keyAt l a b) ∧
        (valid = [] → l' = l) ∧
        (firstViolation l ps = none → valid ≠ [] →
          ∀ p ∈ ps, (keyAt l p.1 p.2).is_symmetric = false →
            (keyAt l p.1 p.2).is_moveable = true →
            ∃ kc, (∃ k, chooseSlice valid (rng k) = some kc) ∧ kc ∈ valid ∧
              keyAt l' p.1 p.2 = KeycodeKey.from_keycode kc) := by
  induction ps with
  | nil =>
    intro n l hwf _ _
    exact ⟨l, by simp [randomizeGo, firstViolation], hwf, flagsEq_refl l,
      fun a b _ => rfl, fun _ => rfl, by simp⟩
  | cons p rest ih =>
    intro n l hwf hps hnd
    obtain ⟨i, j⟩ := p
    obtain ⟨hi, hj⟩ := hps (i, j) (List.mem_cons_self _ _)
    have hrestb : ∀ q ∈ rest, q.1 < R ∧ q.2 < C :=
      fun q hq => hps q (List.mem_cons_of_mem _ hq)
    obtain ⟨hnotmem, hrestnd⟩ := List.nodup_cons.mp hnd
    have hget : l.get i j = .ok (keyAt l i j) := Layer.get_eq_keyAt l hwf hi hj
    have hmj : (C - 1) - j < C := by omega
    have hgetm : l.get i ((C - 1) - j) = .ok (keyAt l i ((C - 1) - j)) :=
      Layer.get_eq_keyAt l hwf hi hmj
    cases hsym : (keyAt l i j).is_symmetric with
    | true =>
      cases hsym2 : (keyAt l i ((C - 1) - j)).is_symmetric with
      | false =>
        -- the violation is reported here, with the layer as mutated so far
        have hfv : firstViolation l ((i, j) :: rest) = some (i, j) := by
          simp [firstViolation, violatingB, hsym, hsym2]
        refine ⟨l, ?_, hwf, flagsEq_refl l, fun a b _ => rfl, fun _ => rfl, ?_⟩
        · rw [hfv]
          simp only [randomizeGo, hget, Layer.get_from_layout_position,
            Layer.symmetric_position, LayoutPosition.for_layer, Layer.num_columns]
          rw [hgetm]
          simp [hsym, hsym2]
        · intro hnone
          rw [hfv] at hnone
          cases hnone
      | true =>
        -- validated symmetric pair: skip
        have hfv : firstViolation l ((i, j) :: rest) = firstViolation l rest := by
          simp [firstViolation, violatingB, hsym, hsym2]
        obtain ⟨l', hrun, hwf', hfl, hframe, hemp, hsucc⟩ := ih n l hwf hrestb hrestnd
        refine ⟨l', ?_, hwf', hfl, ?_, hemp, ?_⟩
        · rw [hfv]
          simp only [randomizeGo, hget, Layer.get_from_layout_position,
            Layer.symmetric_position, LayoutPosition.for_layer, Layer.num_columns]
          rw [hgetm]
          simp [hsym, hsym2]
          exact hrun
        · intro a b hab
          apply hframe
          rcases hab with hab | hab
          · exact Or.inl (fun hmem => hab (List.mem_cons_of_mem _ hmem))
          · exact Or.inr hab
        · intro hnone hvne q hq hqs hqm
          rw [hfv] at hnone
          rcases List.mem_cons.mp hq with rfl | hq'
          · rw [hsym] at hqs
            cases hqs
          · exact hsucc hnone hvne q hq' hqs hqm
    | false =>
      cases hmov : (keyAt l i j).is_moveable with
      | false =>
        -- immovable cell: skip
        have hfv : firstViolation l ((i, j) :: rest) = firstViolation l rest := by
          simp [firstViolation, violatingB, hsym]
        obtain ⟨l', hrun, hwf', hfl, hframe, hemp, hsucc⟩ := ih n l hwf hrestb hrestnd
        refine ⟨l', ?_, hwf', hfl, ?_, hemp, ?_⟩
        · rw [hfv]
          simp only [randomizeGo, hget]
          simp [hsym, hmov]
          exact hrun
        · intro a b hab
          apply hframe
          rcases hab with hab | hab
          · exact Or.inl (fun hmem => hab (List.mem_cons_of_mem _ hmem))
          · exact Or.inr hab
        · intro hnone hvne q hq hqs hqm
          rw [hfv] at hnone
          rcases List.mem_cons.mp hq with rfl | hq'
          · rw [hmov] at hqm
            cases hqm
          · exact hsucc hnone hvne q hq' hqs hqm
      | true =>
        have hfv : firstViolation l ((i, j) :: rest) = firstViolation l rest := by
          simp [firstViolation, violatingB, hsym]
        cases hv : valid with
        | nil =>
          -- empty candidate set: `choose` returns None, nothing changes
          subst hv
          obtain ⟨l', hrun, hwf', hfl, hframe, hemp, hsucc⟩ := ih n l hwf hrestb hrestnd
          refine ⟨l', ?_, hwf', hfl, ?_, hemp, ?_⟩
          · rw [hfv]
            simp only [randomizeGo, hget]
            simp [hsym, hmov, chooseSlice, nth?]
            exact hrun
          · intro a b hab
            apply hframe
            rcases hab with hab | hab
            · exact Or.inl (fun hmem => hab (List.mem_cons_of_mem _ hmem))
            · exact Or.inr hab
          · intro _ hvne
            exact absurd rfl hvne
        | cons v vs =>
          -- replace the cell with an RNG-chosen candidate
          rw [← hv]
          have hvne : valid ≠ [] := by rw [hv]; simp
          obtain ⟨kc, hchoose, hkcmem⟩ := chooseSlice_of_ne_nil valid (rng n) hvne
          have hset : l.set i j (KeycodeKey.from_keycode kc) =
              .ok (setK l i j (KeycodeKey.from_keycode kc)) :=
            Layer.set_ok l hwf hi hj _
          set l2 := setK l i j (KeycodeKey.from_keycode kc) with hl2
          have hwf2 : l2.wf := setK_wf l hwf hi _
          have hl2self : keyAt l2 i j = KeycodeKey.from_keycode kc :=
            keyAt_setK_self l hwf hi hj _
          have hl2ne : ∀ a b, (a, b) ≠ (i, j) → keyAt l2 a b = keyAt l a b :=
            fun a b h => keyAt_setK_ne l _ a b h
          have hfl2 : flagsEq l l2 := by
            intro a b
            by_cases hab : (a, b) = (i, j)
            · obtain ⟨rfl, rfl⟩ := Prod.mk.injEq .. ▸ Prod.ext_iff.mp hab
              rw [hl2self, hsym, hmov]
              exact ⟨rfl, rfl⟩
            · rw [hl2ne a b hab]
              exact ⟨rfl, rfl⟩
          obtain ⟨l', hrun, hwf', hfl, hframe, hemp, hsucc⟩ :=
            ih (n + 1) l2 hwf2 hrestb hrestnd
          have hfv2 : firstViolation l2 rest = firstViolation l rest :=
            firstViolation_congr l l2 hfl2 rest
          refine ⟨l', ?_, hwf', flagsEq_trans hfl2 hfl, ?_, ?_, ?_⟩
          · rw [hfv]
            simp only [randomizeGo, hget]
            simp only [hsym, hmov, Bool.not_true, Bool.not_false, if_false, if_true,
              Bool.false_eq_true, ite_false, ite_true]
            rw [hchoose]
            simp only [hset]
            rw [hrun, hfv2]
          · intro a b hab
            have habne : (a, b) ≠ (i, j) := by
              rcases hab with hab | hab | hab
              · exact fun h => hab (h ▸ List.mem_cons_self _ _)
              · intro h
                obtain ⟨rfl, rfl⟩ := Prod.mk.injEq .. ▸ Prod.ext_iff.mp h
                rw [hsym] at hab
                cases hab
              · intro h
                obtain ⟨rfl, rfl⟩ := Prod.mk.injEq .. ▸ Prod.ext_iff.mp h
                rw [hmov] at hab
                cases hab
            have h2 : keyAt l' a b = keyAt l2 a b := by
              apply hframe
              rcases hab with hab | hab | hab
              · exact Or.inl (fun hmem => hab (List.mem_cons_of_mem _ hmem))
              · exact Or.inr (Or.inl (((hfl2 a b).1).trans hab))
              · exact Or.inr (Or.inr (((hfl2 a b).2).trans hab))
            rw [h2, hl2ne a b habne]
          · intro h
            rw [h] at hv
            cases hv
          · intro hnone hvne' q hq hqs hqm
            rw [hfv] at hnone
            rcases List.mem_cons.mp hq with rfl | hq'
            · refine ⟨kc, ⟨n, hchoose⟩, hkcmem, ?_⟩
              have : keyAt l' i j = keyAt l2 i j := hframe i j (Or.inl hnotmem)
              rw [this, hl2self]
            · have hqs2 : (keyAt l2 q.1 q.2).is_symmetric = false :=
                ((hfl2 q.1 q.2).1).trans hqs
              have hqm2 : (keyAt l2 q.1 q.2).is_moveable = true :=
                ((hfl2 q.1 q.2).2).trans hqm
              exact hsucc (hfv2 ▸ hnone) hvne' q hq' hqs2 hqm2

theorem nth?_lt {α : Type} (l : List α) (i : Nat) (h : i < l.length) :
    ∃ x, nth? l i = some x := by
  induction l generalizing i with
  | nil => simp at h
  | cons a t ih =>
    cases i with
    | zero => exact ⟨a, rfl⟩
    | succ n => exact ih n (by simpa using h)

theorem nth?_mem {α : Type} (l : List α) (i : Nat) (x : α) (h : nth? l i = some x) :
    x ∈ l := by
  induction l generalizing i with
  | nil => simp [nth?] at h
  | cons a t ih =>
    cases i with
    | zero =>
      simp only [nth?, Option.some.injEq] at h
      simp [h]
    | succ n => exact List.mem_cons_of_mem a (ih n h)

theorem nth?_setNth_self {α : Type} (l : List α) (i : Nat) (a : α) (h : i < l.length) :
    nth? (setNth l i a) i = some a := by
  induction l generalizing i with
  | nil => simp at h
  | cons b t ih =>
    cases i with
    | zero => rfl
    | succ n => exact ih n (by simpa using h)

theorem Array2D.get_eq_none {K : Type} {R C : Nat} (a : Array2D K)
    (hlen : a.data.length = R) (hrows : ∀ row ∈ a.data, row.length = C)
    {i j : Nat} (h : R ≤ i ∨ C ≤ j) : a.get i j = none := by
  rcases h with h | h
  · have : nth? a.data i = none := nth?_eq_none _ _ (by rw [hlen]; exact h)
    simp [Array2D.get, this]
  · by_cases hi : i < R
    · have hi' : i < a.data.length := by rw [hlen]; exact hi
      have hrow : nth? a.data i = some (nthD a.data i []) := nth?_eq_nthD _ _ _ hi'
      have : nth? (nthD a.data i []) j = none := by
        apply nth?_eq_none
        rw [hrows _ (nthD_mem _ _ _ hi')]; exact h
      simp [Array2D.get, hrow, this]
    · have : nth? a.data i = none := nth?_eq_none _ _ (by rw [hlen]; omega)
      simp [Array2D.get, this]

theorem Array2D.get_isSome {K : Type} {R C : Nat} (a : Array2D K)
    (hlen : a.data.length = R) (hrows : ∀ row ∈ a.data, row.length = C)
    {i j : Nat} (hi : i < R) (hj : j < C) : ∃ x, a.get i j = some x := by
  obtain ⟨row, hrow⟩ := nth?_lt a.data i (by rw [hlen]; exact hi)
  obtain ⟨x, hx⟩ := nth?_lt row j (by rw [hrows _ (nth?_mem _ _ _ hrow)]; exact hj)
  exact ⟨x, by simp [Array2D.get, hrow, hx]⟩

/-! ### The claims -/

theorem firstViolation_ne_none_of_mem {R C : Nat} (l : Layer R C KeycodeKey)
    (ps : List (Nat × Nat)) (p : Nat × Nat) (hp : p ∈ ps)
    (hv : violatingB l p.1 p.2 = true) :
    firstViolation l ps ≠ none := by
  induction ps with
  | nil => cases hp
  | cons q rest ih =>
    unfold firstViolation
    by_cases hq : violatingB l q.1 q.2 = true
    · simp [hq]
    · rcases List.mem_cons.mp hp with rfl | hp'
      · exact absurd hv hq
      · simp only [hq, if_false]
        exact ih hp'

/-- C1: for every well-formed layer, if any cell is flagged symmetric while
its mirror cell is not (a "violating" cell), `Layer::randomize` fails; the
reported error is the `SymmetryError` carrying both coordinate pairs of the
FIRST violating cell of the row-major scan (its mirror column being
`(C-1)-j`). -/
theorem randomize_reports_first_symmetry_violation {R C : Nat}
    (rng : Nat → Nat) (valid_keycodes : List Keycode) (l : Layer R C KeycodeKey)
    (hwf : l.wf) :
    (∀ i j, i < R → j < C → violatingB l i j = true →
      firstViolation l (rowMajor R C) ≠ none) ∧
    (∀ i j, firstViolation l (rowMajor R C) = some (i, j) →
      (Layer.randomize rng valid_keycodes l).map Prod.snd =
        some (some (KeyboardError.SymmetryError i j i ((C - 1) - j)))) := by
  constructor
  · intro i j hi hj hv
    exact firstViolation_ne_none_of_mem l _ (i, j) (mem_rowMajor.mpr ⟨hi, hj⟩) hv
  · intro i j hfv
    obtain ⟨l', hrun, _⟩ := randomizeGo_spec rng valid_keycodes (rowMajor R C) 0 l
      hwf rowMajor_bounds rowMajor_nodup
    unfold Layer.randomize
    rw [hrun, hfv]
    rfl

/-- C1, concrete scenario: seeded `randomize` on the 2x2 blank layer with cell
(0,0) flagged symmetric and (0,1) not flagged fails with
`SymmetryError(0, 0, 0, 1)`. -/
theorem randomize_reports_first_symmetry_violation_witness :
    (Layer.randomize rngZero [Keycode.E] layerS).map Prod.snd =
      some (some (KeyboardError.SymmetryError 0 0 0 1)) :=
  (randomize_reports_first_symmetry_violation rngZero [Keycode.E] layerS
    (by decide)).2 0 0 (by decide)

/-- C2: for every layer and every position with `col_index < C`,
`symmetric_position` maps `(row, col)` to `(row, C-1-col)` leaving the row and
layer index unchanged, and it is an involution on such positions. -/
theorem symmetric_position_mirror_involution {R C : Nat} {K : Type}
    (l : Layer R C K) (p : LayoutPosition) (h : p.col_index < C) :
    l.symmetric_position p =
      { layer_index := p.layer_index, row_index := p.row_index,
        col_index := (C - 1) - p.col_index } ∧
    l.symmetric_position (l.symmetric_position p) = p := by
  constructor
  · rfl
  · cases p with
    | mk a b c =>
      simp only [Layer.symmetric_position, Layer.num_columns, LayoutPosition.mk.injEq,
        true_and]
      simp only at h
      omega

/-- C2, concrete instance on a 4x6 layer at position (2,5) (mirrors to (2,0)
and back). -/
theorem symmetric_position_mirror_involution_witness :
    layerB46.symmetric_position ⟨0, 2, 5⟩ = ⟨0, 2, 0⟩ ∧
    layerB46.symmetric_position (layerB46.symmetric_position ⟨0, 2, 5⟩) = ⟨0, 2, 5⟩ :=
  symmetric_position_mirror_involution layerB46 ⟨0, 2, 5⟩ (by decide)

/-- C3: whatever `randomize` returns (success or a symmetry error part-way),
a cell whose `moveable` flag is false, and a cell whose `symmetric` flag is
true with a mirror also flagged symmetric, holds the same key after the call
as before. -/
theorem randomize_preserves_pinned_and_symmetric {R C : Nat}
    (rng : Nat → Nat) (valid_keycodes : List Keycode)
    (l l' : Layer R C KeycodeKey) (err : Option KeyboardError) (hwf : l.wf)
    (hrun : Layer.randomize rng valid_keycodes l = some (l', err))
    (i j : Nat)
    (hcond : (keyAt l i j).is_moveable = false ∨
      ((keyAt l i j).is_symmetric = true ∧
       (keyAt l i ((C - 1) - j)).is_symmetric = true)) :
    keyAt l' i j = keyAt l i j := by
  obtain ⟨l2, hrun2, _, _, hframe, _, _⟩ := randomizeGo_spec rng valid_keycodes
    (rowMajor R C) 0 l hwf rowMajor_bounds rowMajor_nodup
  unfold Layer.randomize at hrun
  rw [hrun] at hrun2
  simp only [Option.some.injEq, Prod.mk.injEq] at hrun2
  obtain ⟨rfl, -⟩ := hrun2
  apply hframe
  rcases hcond with hcond | hcond
  · exact Or.inr (Or.inr hcond)
  · exact Or.inr (Or.inl hcond.1)

/-- C3, concrete instance: the pinned cell (0,0) of `layerPin` is unchanged by
a seeded `randomize` that replaces the moveable cell next to it. -/
theorem randomize_preserves_pinned_and_symmetric_witness :
    keyAt layerPinAfter 0 0 = keyAt layerPin 0 0 :=
  randomize_preserves_pinned_and_symmetric rngZero [Keycode.E]
    layerPin layerPinAfter none (by decide) (by decide) 0 0 (Or.inl (by decide))

/-- C4: contrary to the claim, `Layer::<2,3>::from_rows` ACCEPTS an input of a
single row holding a single element: `Array2D::from_rows` only checks that all
rows share the first row's length, and the declared `R`, `C` are never
compared against the input, so the call returns `Ok` with a 1x1 grid while
`num_rows`/`num_columns` still report the declared 2 and 3. -/
theorem from_rows_ignores_declared_dimensions :
    Layer.from_rows 2 3 [[KeycodeKey.from_keycode Keycode.A]] = .ok layerTiny ∧
    layerTiny.num_rows = 2 ∧ layerTiny.num_columns = 3 ∧
    layerTiny.layer.data.length = 1 ∧ ¬ layerTiny.wf := by decide

/-- C5: when the row-major scan of a well-formed layer has no symmetry
violation, `randomize` succeeds; with an empty candidate set the layer is
returned unchanged; and every moveable, non-symmetric cell ends up holding a
key built from a candidate selected by an RNG draw (`chooseSlice` models
`rand`'s uniform `choose`: index `draw % len` into the candidate slice). -/
theorem randomize_replaces_moveable_cells {R C : Nat}
    (rng : Nat → Nat) (candidate_values : List Keycode)
    (l l' : Layer R C KeycodeKey) (err : Option KeyboardError) (hwf : l.wf)
    (hok : firstViolation l (rowMajor R C) = none)
    (hrun : Layer.randomize rng candidate_values l = some (l', err)) :
    err = none ∧
    (candidate_values = [] → l' = l) ∧
    (∀ i j, i < R → j < C →
      (keyAt l i j).is_symmetric = false → (keyAt l i j).is_moveable = true →
      candidate_values ≠ [] →
      ∃ kc, (∃ k, chooseSlice candidate_values (rng k) = some kc) ∧
        kc ∈ candidate_values ∧ keyAt l' i j = KeycodeKey.from_keycode kc) := by
  obtain ⟨l2, hrun2, _, _, _, hemp, hsucc⟩ := randomizeGo_spec rng candidate_values
    (rowMajor R C) 0 l hwf rowMajor_bounds rowMajor_nodup
  unfold Layer.randomize at hrun
  rw [hrun, hok] at hrun2
  simp only [Option.map_none', Option.some.injEq, Prod.mk.injEq] at hrun2
  obtain ⟨rfl, rfl⟩ := hrun2
  refine ⟨rfl, hemp, ?_⟩
  intro i j hi hj hs hm hne
  exact hsucc hok hne (i, j) (mem_rowMajor.mpr ⟨hi, hj⟩) hs hm

/-- C5, concrete instance: a seeded `randomize` on the 1x1 moveable blank
layer with candidate set `[E]` succeeds and stores a key drawn from `[E]`. -/
theorem randomize_replaces_moveable_cells_witness :
    (none : Option KeyboardError) = none ∧
    (([Keycode.E] : List Keycode) = [] → layerOneAfter = layerOne) ∧
    (∀ i j, i < 1 → j < 1 →
      (keyAt layerOne i j).is_symmetric = false →
      (keyAt layerOne i j).is_moveable = true →
      ([Keycode.E] : List Keycode) ≠ [] →
      ∃ kc, (∃ k, chooseSlice [Keycode.E] (rngZero k) = some kc) ∧
        kc ∈ [Keycode.E] ∧ keyAt layerOneAfter i j = KeycodeKey.from_keycode kc) :=
  randomize_replaces_moveable_cells rngZero [Keycode.E] layerOne layerOneAfter
    none (by decide) (by decide) (by decide)

/-- C6: a layer string with a wrong number of non-blank lines does fail with
`RowMismatchError(R, rows.len())` and one with a wrong token count fails with
`ColMismatchError(C, cols.len())`, but contrary to the claim the rendered
row-mismatch message does NOT name the actual count: the `Display` impl
interpolates the expected count `r1` into both placeholders, so
`RowMismatchError(2, 1)` renders as "Expected 2 rows but found 2 rows."
(the column message does name both counts, miscalling them rows). -/
theorem row_mismatch_message_repeats_expected_count :
    Layer.try_from 2 1 "A_10" =
      some (.error (.kb (.RowMismatchError 2 1))) ∧
    KeyboardError.render (.RowMismatchError 2 1) =
      "Expected 2 rows but found 2 rows." ∧
    Layer.try_from 1 2 "A_10" =
      some (.error (.kb (.ColMismatchError 2 1))) ∧
    KeyboardError.render (.ColMismatchError 2 1) =
      "Expected 2 rows but found 1 rows." := by
  refine ⟨by decide, rfl, by decide, rfl⟩

/-- C7: contrary to the claim, a token whose flag characters are digits other
than '0'/'1' is NOT rejected: `A_22` parses successfully into a key with both
flags set (any non-zero digit counts as true), and a token with a non-digit
flag character such as `A_x1` makes the parser panic on
`to_digit(10).unwrap()` (modelled by `none`) instead of returning an
`InvalidToken` error. -/
theorem invalid_flag_characters_not_rejected :
    Layer.try_from 1 1 "A_22" = some (.ok layerA22) ∧
    Layer.try_from 1 1 "A_x1" = none := by
  refine ⟨by decide, by decide⟩

/-- C8: on a layer whose stored grid matches the declared dimensions, `get`,
`get_mut` and `set` fail with `IndicesOutOfBounds(r, c)` exactly when `r ≥ R`
or `c ≥ C`; in-bounds `get` succeeds, in-bounds `set` succeeds and stores the
given element, and `get_mut` behaves exactly like `get`. -/
theorem layer_access_bounds {R C : Nat} {K : Type} (l : Layer R C K)
    (hwf : l.wf) (r c : Nat) (v : K) :
    (r < R ∧ c < C → ∃ x, l.get r c = .ok x) ∧
    (r < R ∧ c < C → ∃ l2, l.set r c v = .ok l2 ∧ l2.layer.get r c = some v) ∧
    (R ≤ r ∨ C ≤ c →
      l.get r c = .error (.IndicesOutOfBounds r c) ∧
      l.get_mut r c = .error (.IndicesOutOfBounds r c) ∧
      l.set r c v = .error (.IndicesOutOfBounds r c)) ∧
    l.get_mut r c = l.get r c := by
  obtain ⟨hlen, hrows⟩ := hwf
  refine ⟨?_, ?_, ?_, rfl⟩
  · rintro ⟨hr, hc⟩
    obtain ⟨x, hx⟩ := Array2D.get_isSome l.layer hlen hrows hr hc
    exact ⟨x, by simp [Layer.get, hx]⟩
  · rintro ⟨hr, hc⟩
    obtain ⟨x, hx⟩ := Array2D.get_isSome l.layer hlen hrows hr hc
    refine ⟨⟨⟨setNth l.layer.data r (setNth (nthD l.layer.data r []) c v)⟩⟩,
      by simp [Layer.set, Array2D.set, hx], ?_⟩
    have hr' : r < l.layer.data.length := by rw [hlen]; exact hr
    have hrowlen : (nthD l.layer.data r []).length = C :=
      hrows _ (nthD_mem _ _ _ hr')
    have h1 : nth? (setNth l.layer.data r (setNth (nthD l.layer.data r []) c v)) r =
        some (setNth (nthD l.layer.data r []) c v) := nth?_setNth_self _ _ _ hr'
    have h2 : nth? (setNth (nthD l.layer.data r []) c v) c = some v :=
      nth?_setNth_self _ _ _ (by rw [hrowlen]; exact hc)
    simp [Array2D.get, h1, h2]
  · intro h
    have hnone : l.layer.get r c = none := Array2D.get_eq_none l.layer hlen hrows h
    exact ⟨by simp [Layer.get, hnone], by simp [Layer.get_mut, hnone],
      by simp [Layer.set, Array2D.set, hnone]⟩

/-- C8, concrete instance on a blank 2x3 layer: in-bounds (0,1) access and
update succeed, out-of-bounds behaviour at the same coordinates is covered by
the quantified theorem instantiated here. -/
theorem layer_access_bounds_witness :
    ((0 : Nat) < 2 ∧ (1 : Nat) < 3 → ∃ x, layerB23.get 0 1 = .ok x) ∧
    ((0 : Nat) < 2 ∧ (1 : Nat) < 3 → ∃ l2,
      layerB23.set 0 1 (KeycodeKey.from_keycode .E) = .ok l2 ∧
      l2.layer.get 0 1 = some (KeycodeKey.from_keycode .E)) ∧
    ((2 : Nat) ≤ 0 ∨ (3 : Nat) ≤ 1 →
      layerB23.get 0 1 = .error (.IndicesOutOfBounds 0 1) ∧
      layerB23.get_mut 0 1 = .error (.IndicesOutOfBounds 0 1) ∧
      layerB23.set 0 1 (KeycodeKey.from_keycode .E) =
        .error (.IndicesOutOfBounds 0 1)) ∧
    layerB23.get_mut 0 1 = layerB23.get 0 1 :=
  layer_access_bounds layerB23 (by decide) 0 1 (KeycodeKey.from_keycode .E)

/-- C9: `randomize` is not atomic on error: on `layerNA` (cell (0,1) symmetric,
its mirror (0,0) plain moveable) the seeded call returns the symmetry error
for (0,1) while cell (0,0), scanned earlier, has already been replaced, so the
layer differs from its pre-call state. -/
theorem randomize_not_atomic_on_error :
    Layer.randomize rngZero [Keycode.E] layerNA =
      some (layerNAAfter, some (.SymmetryError 0 1 0 0)) ∧
    keyAt layerNAAfter 0 0 ≠ keyAt layerNA 0 0 ∧
    layerNAAfter ≠ layerNA := by decide

/-- C10: `symmetric_position` is partial at the public interface: the checked
version (modelling the `usize` subtraction `(C-1) - col`) panics exactly when
`col_index ≥ C` — equivalently, the mathematical value `C - 1 - col` is then
negative — and under the precondition `col_index < C` it agrees with the total
model and its result is again in bounds. -/
theorem symmetric_position_partial_at_interface {R C : Nat} {K : Type}
    (l : Layer R C K) (p : LayoutPosition) :
    (l.symmetric_position_checked p = none ↔ C ≤ p.col_index) ∧
    (((C : Int) - 1 - (p.col_index : Int) < 0) ↔ C ≤ p.col_index) ∧
    (p.col_index < C →
      l.symmetric_position_checked p = some (l.symmetric_position p) ∧
      (l.symmetric_position p).col_index < C) := by
  refine ⟨?_, by omega, ?_⟩
  · unfold Layer.symmetric_position_checked
    by_cases h : 1 ≤ C ∧ p.col_index ≤ C - 1
    · rw [if_pos h]
      simp only [reduceCtorEq, false_iff]
      omega
    · rw [if_neg h]
      simp only [true_iff]
      omega
  · intro h
    have hcond : 1 ≤ C ∧ p.col_index ≤ C - 1 := by omega
    refine ⟨by unfold Layer.symmetric_position_checked; rw [if_pos hcond], ?_⟩
    simp only [Layer.symmetric_position, Layer.num_columns]
    omega

/-- C10, concrete instance: on a 1x3 layer, position with `col_index = 5` is
out of range (`3 ≤ 5`), so the checked mirror computation panics there, and
`(3 : Int) - 1 - 5 < 0` witnesses the underflow. -/
theorem symmetric_position_partial_at_interface_witness :
    (layerB13.symmetric_position_checked ⟨0, 0, 5⟩ = none ↔ (3 : Nat) ≤ 5) ∧
    ((((3 : Nat) : Int) - 1 - (((5 : Nat) : Nat) : Int) < 0) ↔ (3 : Nat) ≤ 5) ∧
    ((5 : Nat) < 3 →
      layerB13.symmetric_position_checked ⟨0, 0, 5⟩ =
        some (layerB13.symmetric_position ⟨0, 0, 5⟩) ∧
      (layerB13.symmetric_position ⟨0, 0, 5⟩).col_index < 3) :=
  symmetric_position_partial_at_interface layerB13 ⟨0, 0, 5⟩
